import Mathlib

/-!
Verification of the idempotent structural patch engine in
`tools/patch_firefox_container_ast.mjs`.

The tool parses JavaScript/TypeScript files with Babel, locates code shapes
by structural predicates over the syntax tree, and applies byte-range edits.
This development shallowly embeds the tool's pure core:

* text buffers are `List Char` (JS strings, one entry per UTF-16 code unit
  as used by `slice`/`lastIndexOf` offsets);
* Babel syntax trees are modelled by `JVal`, a JS-value tree whose objects
  carry ordered fields, mirroring `Object.keys` enumeration order; `loc`
  and `range` sub-objects are omitted since no predicate of the tool
  inspects them and they contain no node the predicates could match;
* the external Babel entry points `parseSync` (for the fixed snippet
  strings) and `generate` are not code of this repository, so rules take
  them as oracle parameters `parse : Text → JVal` and `gen : JVal → Text`;
* `fs.writeFile` is modelled by the `written` component of a rule's result:
  `some out` is the single write the rule performs, `none` means the file
  is untouched.  A thrown `PatchError` is an `Except.error`.
-/

/-- A JS string, indexed by code-unit offsets as in the tool. -/
abbrev Text := List Char

/-!
`JVal` models a Babel AST / arbitrary JS value reachable by `walk`:
objects with ordered fields, arrays, strings, numbers, booleans and
`null`/`undefined` (collapsed into `null`, which is adequate because the
tool only tests such values for truthiness or compares them with string
literals).
-/
mutual
inductive JVal where
  | obj : JFields → JVal
  | arr : JArr → JVal
  | str : String → JVal
  | num : Int → JVal
  | bool : Bool → JVal
  | null : JVal
deriving DecidableEq

inductive JFields where
  | fnil : JFields
  | fcons : String → JVal → JFields → JFields
deriving DecidableEq

inductive JArr where
  | anil : JArr
  | acons : JVal → JArr → JArr
deriving DecidableEq
end

def JFields.ofList : List (String × JVal) → JFields
  | [] => .fnil
  | (k, v) :: rest => .fcons k v (JFields.ofList rest)

def JArr.ofList : List JVal → JArr
  | [] => .anil
  | v :: rest => .acons v (JArr.ofList rest)

def JArr.toList : JArr → List JVal
  | .anil => []
  | .acons v rest => v :: rest.toList

/-- Field lookup, `node[key]`; a missing field (JS `undefined`) is `null`. -/
def JFields.lookup : JFields → String → JVal
  | .fnil, _ => .null
  | .fcons k v rest, key => if k = key then v else rest.lookup key

/-- `node[key]` on a JS value (non-objects have no fields the tool reads). -/
def getF : JVal → String → JVal
  | .obj fs, key => fs.lookup key
  | _, _ => .null

/-- JS truthiness. -/
def truthy : JVal → Bool
  | .obj _ => true
  | .arr _ => true
  | .str s => s ≠ ""
  | .num n => n ≠ 0
  | .bool b => b
  | .null => false

/-- Read a string field (`''` when the value is not a string; the tool only
ever compares such reads against non-empty literals). -/
def asStr : JVal → String
  | .str s => s
  | _ => ""

/-- Read a numeric field as a byte offset (Babel spans are non-negative). -/
def asNat : JVal → Nat
  | .num n => n.toNat
  | _ => 0

/-- `n.type`. -/
def typeOf (v : JVal) : String := asStr (getF v "type")

/-- `n.start` (a Babel byte offset). -/
def startOf (v : JVal) : Nat := asNat (getF v "start")

/-- `n.end` (a Babel byte offset). -/
def endOf (v : JVal) : Nat := asNat (getF v "end")

/-- Elements of an array-valued field; `toListJ` of a non-array is `[]`,
matching how the tool only iterates or `.some(...)`s such fields behind
optional chaining. -/
def toListJ : JVal → List JVal
  | .arr l => l.toList
  | _ => []

/-- `k.type === 'Identifier' && k.name === nm`. -/
def isIdentNamed (v : JVal) (nm : String) : Bool :=
  typeOf v == "Identifier" && asStr (getF v "name") == nm

/-- Replace the value of an existing field (used to model the tool's
in-place scalar rewrites on a node it owns); absent keys are left alone,
which never occurs on the nodes the tool rewrites. -/
def JFields.setVal : JFields → String → JVal → JFields
  | .fnil, _, _ => .fnil
  | .fcons k v rest, key, w =>
      if k = key then .fcons k w rest else .fcons k v (rest.setVal key w)

def setF : JVal → String → JVal → JVal
  | .obj fs, key, w => .obj (fs.setVal key w)
  | v, _, _ => v

/-- `arr[i] = v` on an array value (models `desiredExprAst.arguments[1] = ...`,
which assigns within bounds in the tool). -/
def setIdx (v : JVal) (i : Nat) (w : JVal) : JVal :=
  match v with
  | .arr l => .arr (JArr.ofList (l.toList.set i w))
  | _ => v

/-!
### Tree search primitives

`walk` embeds the source's traversal: the visitor runs on the node, then
every enumerable field value is considered; falsy and non-object values are
skipped, array values are iterated element-wise with the containing node as
parent, object values are walked recursively.  The visitor's JS return of
the literal `false` (the stop sentinel) is modelled by the `Bool` visitor
returning `true`.  `findFirst` purifies the source's stateful
`found`-capturing visitor into an `Option` result.
-/

mutual
def walk (vis : JVal → Option JVal → Bool) : JVal → Option JVal → Bool
  | .obj fs, p =>
      if vis (.obj fs) p then true else walkFields vis fs (.obj fs)
  | .arr l, p =>
      if vis (.arr l) p then true else walkElems vis l (.arr l)
  | _, _ => false

def walkFields (vis : JVal → Option JVal → Bool) : JFields → JVal → Bool
  | .fnil, _ => false
  | .fcons _ (.obj fs) rest, n =>
      walk vis (.obj fs) (some n) || walkFields vis rest n
  | .fcons _ (.arr items) rest, n =>
      walkItems vis items n || walkFields vis rest n
  | .fcons _ _ rest, n => walkFields vis rest n

def walkItems (vis : JVal → Option JVal → Bool) : JArr → JVal → Bool
  | .anil, _ => false
  | .acons it rest, n => walk vis it (some n) || walkItems vis rest n

def walkElems (vis : JVal → Option JVal → Bool) : JArr → JVal → Bool
  | .anil, _ => false
  | .acons (.obj fs) rest, n =>
      walk vis (.obj fs) (some n) || walkElems vis rest n
  | .acons (.arr items) rest, n =>
      walkItems vis items n || walkElems vis rest n
  | .acons _ rest, n => walkElems vis rest n
end

mutual
def findFirst (pred : JVal → Option JVal → Bool) : JVal → Option JVal → Option JVal
  | .obj fs, p =>
      if pred (.obj fs) p then some (.obj fs) else findFields pred fs (.obj fs)
  | .arr l, p =>
      if pred (.arr l) p then some (.arr l) else findElems pred l (.arr l)
  | _, _ => none

def findFields (pred : JVal → Option JVal → Bool) : JFields → JVal → Option JVal
  | .fnil, _ => none
  | .fcons _ (.obj fs) rest, n =>
      (findFirst pred (.obj fs) (some n)).or (findFields pred rest n)
  | .fcons _ (.arr items) rest, n =>
      (findItems pred items n).or (findFields pred rest n)
  | .fcons _ _ rest, n => findFields pred rest n

def findItems (pred : JVal → Option JVal → Bool) : JArr → JVal → Option JVal
  | .anil, _ => none
  | .acons it rest, n =>
      (findFirst pred it (some n)).or (findItems pred rest n)

def findElems (pred : JVal → Option JVal → Bool) : JArr → JVal → Option JVal
  | .anil, _ => none
  | .acons (.obj fs) rest, n =>
      (findFirst pred (.obj fs) (some n)).or (findElems pred rest n)
  | .acons (.arr items) rest, n =>
      (findItems pred items n).or (findElems pred rest n)
  | .acons _ rest, n => findElems pred rest n
end

/-- `hasNode(root, predicate)` is `!!findFirst(root, predicate)`. -/
def hasNode (root : JVal) (pred : JVal → Option JVal → Bool) : Bool :=
  (findFirst pred root none).isSome

/-!
The pre-order visit sequence induced by `walk`: the list of
`(node, parent)` pairs on which the visitor runs, in order, when it never
stops.  This is the specification against which `findFirst` and `walk`
are verified.
-/

mutual
def preW : JVal → Option JVal → List (JVal × Option JVal)
  | .obj fs, p => (JVal.obj fs, p) :: preFields fs (.obj fs)
  | .arr l, p => (JVal.arr l, p) :: preElems l (.arr l)
  | _, _ => []

def preFields : JFields → JVal → List (JVal × Option JVal)
  | .fnil, _ => []
  | .fcons _ (.obj fs) rest, n =>
      preW (.obj fs) (some n) ++ preFields rest n
  | .fcons _ (.arr items) rest, n =>
      preItems items n ++ preFields rest n
  | .fcons _ _ rest, n => preFields rest n

def preItems : JArr → JVal → List (JVal × Option JVal)
  | .anil, _ => []
  | .acons it rest, n => preW it (some n) ++ preItems rest n

def preElems : JArr → JVal → List (JVal × Option JVal)
  | .anil, _ => []
  | .acons (.obj fs) rest, n =>
      preW (.obj fs) (some n) ++ preElems rest n
  | .acons (.arr items) rest, n =>
      preItems items n ++ preElems rest n
  | .acons _ rest, n => preElems rest n
end

/-!
### Text and position utilities (`detectEol`, `getColumnAt`, `indentLines`,
`applyEdits`)
-/

/-- One occurrence test: does `pat` occur in `text` starting at `i`? -/
def occursAt (text pat : Text) (i : Nat) : Bool :=
  pat.isPrefixOf (text.drop i)

/-- Largest `i ≤ k` such that `pat` occurs in `text` at `i`. -/
def lastOccurLE (text pat : Text) : Nat → Option Nat
  | 0 => if occursAt text pat 0 then some 0 else none
  | k + 1 => if occursAt text pat (k + 1) then some (k + 1) else lastOccurLE text pat k

/-- JS `String.prototype.lastIndexOf(pat, fromIdx)`: the `fromIdx` is
clamped into `[0, text.length]` and the result is the largest occurrence
position `≤` the clamped index, or `-1`. -/
def jsLastIndexOf (text pat : Text) (fromIdx : Int) : Int :=
  match lastOccurLE text pat (min fromIdx.toNat text.length) with
  | none => -1
  | some i => (i : Int)

def lfText : Text := ['\n']

def crlfText : Text := ['\r', '\n']

/-- `detectEol`: `'\r\n'` if the text contains any CRLF, else `'\n'`. -/
def detectEol (text : Text) : Text :=
  if (lastOccurLE text crlfText text.length).isSome then crlfText else lfText

/-- `getColumnAt(text, index, eol)` from the source: search backward from
`index - 1` for the line ending (CRLF when `eol` is CRLF, else LF) and
subtract the end position of that occurrence; with no occurrence found the
column is `index` itself.  The result is an `Int` because the JS
subtraction can go negative. -/
def getColumnAt (text : Text) (index : Nat) (eol : Text) : Int :=
  let nl : Int :=
    if eol = crlfText then jsLastIndexOf text crlfText ((index : Int) - 1)
    else jsLastIndexOf text lfText ((index : Int) - 1)
  (index : Int) - (if nl < 0 then 0 else nl + (eol.length : Int))

/-- The spec's wording for `columnAt` ("Modelled from the spec", for
comparison with `getColumnAt` only): the nearest line-ending occurrence
strictly before the offset, i.e. starting at some `nl < index`; when no
line ending precedes the offset the column is the offset itself. -/
def specColumnAt (text : Text) (index : Nat) (eol : Text) : Int :=
  match (if index = 0 then none else lastOccurLE text eol (index - 1)) with
  | none => (index : Int)
  | some nl => (index : Int) - ((nl : Int) + (eol.length : Int))

/-- Split on `'\n'` as JS `text.split('\n')`. -/
def splitNl : Text → List Text
  | [] => [[]]
  | c :: rest =>
      match splitNl rest with
      | [] => [[c]]
      | h :: t => if c = '\n' then [] :: h :: t else (c :: h) :: t

/-- `indentLines(text, indent)`: prefix every line with `indent` spaces.
A negative indent would make JS `' '.repeat` throw; the tool only ever
passes a column, which is non-negative, so the model clamps via `toNat`. -/
def indentLines (text : Text) (indent : Int) : Text :=
  List.intercalate ['\n'] ((splitNl text).map (fun line => List.replicate indent.toNat ' ' ++ line))

/-- `s.replaceAll('\n', eol)`. -/
def toEol (eol : Text) (s : Text) : Text :=
  s.flatMap (fun c => if c = '\n' then eol else [c])

/-- An edit replaces the half-open byte range `[start, endPos)` (the JS
fields `start`/`end`; `end` is a Lean keyword) with `replacement`. -/
structure Edit where
  start : Nat
  endPos : Nat
  replacement : Text
deriving DecidableEq

/-- The comparator `(b.start - a.start) || (b.end - a.end)` of the source
orders `a` before `b` exactly when it is `≤ 0`.  ECMAScript `sort` is
stable, and a stable sort by a total preorder is unique, so the sort is
modelled by the (stable, structurally recursive) insertion sort over this
total relation. -/
def editLe (a b : Edit) : Bool :=
  decide (b.start < a.start ∨ (b.start = a.start ∧ b.endPos ≤ a.endPos))

/-- `editLe` as a relation, for `List.insertionSort`. -/
def editLeR (a b : Edit) : Prop := editLe a b = true

instance instDecEditLeR : DecidableRel editLeR := fun a b => by
  unfold editLeR
  infer_instance

instance instTotalEditLeR : IsTotal Edit editLeR where
  total a b := by
    unfold editLeR editLe
    simp only [decide_eq_true_eq]
    omega

instance instTransEditLeR : IsTrans Edit editLeR where
  trans a b c h1 h2 := by
    unfold editLeR editLe at h1 h2 ⊢
    simp only [decide_eq_true_eq] at h1 h2 ⊢
    omega

/-- `out.slice(0, e.start) + e.replacement + out.slice(e.end)`. -/
def spliceEdit (out : Text) (e : Edit) : Text :=
  out.take e.start ++ e.replacement ++ out.drop e.endPos

/-- `applyEdits(text, edits)`: sort a copy descending by `(start, end)`
and splice each edit back-to-front. -/
def applyEdits (text : Text) (edits : List Edit) : Text :=
  (List.insertionSort editLeR edits).foldl spliceEdit text

/-- Single-pass substitution against original offsets: starting from
`pos`, emit `text[pos, e.start)`, then `e.replacement`, and continue from
`e.endPos`; the untouched tail follows the last edit. -/
def onePassFrom (text : Text) : Nat → List Edit → Text
  | pos, [] => text.drop pos
  | pos, e :: rest =>
      (text.take e.start).drop pos ++ e.replacement ++ onePassFrom text e.endPos rest

/-- Well-formedness of an ascending edit list against `text`: each range
lies within the buffer, starts at or after `pos`, and ends before the next
range starts. -/
def Chained (text : Text) : Nat → List Edit → Prop
  | _, [] => True
  | pos, e :: rest =>
      pos ≤ e.start ∧ e.start ≤ e.endPos ∧ e.endPos ≤ text.length ∧
        Chained text e.endPos rest

/-- Two edits whose half-open ranges do not overlap. -/
def EditDisjoint (a b : Edit) : Prop :=
  a.endPos ≤ b.start ∨ b.endPos ≤ a.start

/-!
### The patch rules

Each rule models one `patchXxx` function of the source.  A rule receives
the file content `code`, the Babel parse `ast` of that content, and -- for
the rules that synthesize replacement text -- the external Babel oracles:
`parse` (applied to the rule's fixed snippet string) and `gen`
(`@babel/generator` on a node).  A rule returns `Except PatchError
PatchResult`; `written = some out` models the single `fs.writeFile` the
rule performs and `changed` its boolean result.
-/

/-- The one error class of the tool (its `name` is always `'PatchError'`). -/
structure PatchError where
  message : String
deriving DecidableEq

structure PatchResult where
  changed : Bool
  written : Option Text
deriving DecidableEq

/-- Babel `parseSync` oracle (external library, not repository code). -/
abbrev ParseFn := Text → JVal

/-- Babel `generate` oracle (external library, not repository code). -/
abbrev GenFn := JVal → Text

/-- Anchor predicate of `patchPreinject`: `n.type === 'ObjectMethod'` with
key identifier `GetInjected`. -/
def isGetInjectedMethod (n : JVal) (_ : Option JVal) : Bool :=
  typeOf n == "ObjectMethod" &&
    (truthy (getF n "key") && typeOf (getF n "key") == "Identifier" &&
      asStr (getF (getF n "key") "name") == "GetInjected")

/-- Anchor predicate of `patchContentIndex`: `function init` declaration. -/
def isInitFn (n : JVal) (_ : Option JVal) : Bool :=
  typeOf n == "FunctionDeclaration" && isIdentNamed (getF n "id") "init"

/-- Anchor predicate of `patchInject`: `function injectScripts` declaration. -/
def isInjectScriptsFn (n : JVal) (_ : Option JVal) : Bool :=
  typeOf n == "FunctionDeclaration" && isIdentNamed (getF n "id") "injectScripts"

/-- Anchor predicate of `patchTypes`: `namespace VMInjection`. -/
def isVMInjectionNs (n : JVal) (_ : Option JVal) : Bool :=
  typeOf n == "TSModuleDeclaration" && isIdentNamed (getF n "id") "VMInjection"

/-- The canonical snippet `patchPreinject` feeds to `parseJs` (the
source's 15-line template joined with `'\n'`, including the trailing empty
entry). -/
def preinjectSnippet : String :=
  "const container = IS_FIREFOX && isApplied && (tab.cookieStoreId || (await browser.tabs.get(tabId).catch(() => (\x7b\x7d))).cookieStoreId);\n" ++
  "const injectInfo = inject.info || \x7b\x7d;\n" ++
  "const injectGmi = injectInfo.gmi || \x7b\x7d;\n" ++
  "const injectOut = IS_FIREFOX && isApplied\n" ++
  "  ? \x7b\n" ++
  "    __proto__: null,\n" ++
  "    ...inject,\n" ++
  "    info: \x7b\n" ++
  "      __proto__: null,\n" ++
  "      ...injectInfo,\n" ++
  "      gmi: \x7b __proto__: null, ...injectGmi, container: container \x7d,\n" ++
  "    \x7d,\n" ++
  "  \x7d\n" ++
  "  : inject;\n" ++
  "if (isApplied && done) return \x7b info: \x7b __proto__: null, gmi: \x7b __proto__: null, container: container \x7d \x7d \x7d;\n"

/-- The snippet `patchContentIndex` feeds to `parseJs`. -/
def contentIndexSnippet : String :=
  "if (IS_FIREFOX && info && (!info.gmi || !(\x27container\x27 in info.gmi))) \x7b\n" ++
  "  try \x7b\n" ++
  "    const extra = await dataPromise;\n" ++
  "    const extraGmi = extra && extra.info && extra.info.gmi;\n" ++
  "    if (extraGmi) info.gmi = assign(info.gmi || createNullObj(), extraGmi);\n" ++
  "  \x7d catch (e) \x7b void e; \x7d\n" ++
  "\x7d"

/-- The snippet `patchInject` feeds to `parseJs`. -/
def injectSnippet : String := "assign(info.gmi || createNullObj(), \x7b\x7d);"

/-- The visitor effect of `replaceInNode`'s walk: rename an `Identifier`
node called `inject` to `injectOut`. -/
def renameIdent (v : JVal) : JVal :=
  if typeOf v == "Identifier" && asStr (getF v "name") == "inject" then
    setF v "name" (JVal.str "injectOut")
  else v

/-!
`replaceInNode` walks a subtree mutating every `Identifier` named
`inject`.  Every object node of a `JVal` tree is visited by `walk`
(non-object values have no children and are skipped unchanged), so the
mutation is modelled by the blanket structural map below.
-/
mutual
def renameInject : JVal → JVal
  | .obj fs => renameIdent (.obj (renameFields fs))
  | .arr l => .arr (renameArr l)
  | v => v

def renameFields : JFields → JFields
  | .fnil => .fnil
  | .fcons k v rest => .fcons k (renameInject v) (renameFields rest)

def renameArr : JArr → JArr
  | .anil => .anil
  | .acons v rest => .acons (renameInject v) (renameArr rest)
end

/-- `stmtLooksOk(stmt, name)` of `patchPreinject` (the `!stmt` guard lives
in `maybeReplaceStmt` below, which only calls this with a found node). -/
def stmtLooksOk (stmt : JVal) (name : String) : Bool :=
  if name == "container" then
    hasNode stmt (fun n _ => typeOf n == "Identifier" && asStr (getF n "name") == "isApplied") &&
    hasNode stmt (fun n _ => typeOf n == "Identifier" && asStr (getF n "name") == "tabId") &&
    hasNode stmt (fun n _ => typeOf n == "Identifier" && asStr (getF n "name") == "cookieStoreId") &&
    hasNode stmt (fun n _ =>
      typeOf n == "MemberExpression" &&
      !(truthy (getF n "computed")) &&
      (truthy (getF n "object") && typeOf (getF n "object") == "Identifier") &&
      asStr (getF (getF n "object") "name") == "browser" &&
      (truthy (getF n "property") && typeOf (getF n "property") == "Identifier") &&
      asStr (getF (getF n "property") "name") == "tabs") &&
    hasNode stmt (fun n _ => typeOf n == "Identifier" && asStr (getF n "name") == "catch")
  else if name == "injectOut" then
    hasNode stmt (fun n _ => typeOf n == "Identifier" && asStr (getF n "name") == "injectGmi") &&
    hasNode stmt (fun n _ => typeOf n == "Identifier" && asStr (getF n "name") == "container")
  else if name == "earlyReturn" then
    hasNode stmt (fun n _ => typeOf n == "Identifier" && asStr (getF n "name") == "done") &&
    hasNode stmt (fun n _ => typeOf n == "Identifier" && asStr (getF n "name") == "container")
  else true

/-- `maybeReplaceStmt`: no edit when the statement is absent
(`if (!existing) return`) or already looks OK; otherwise replace its span
with the freshly rendered canonical statement. -/
def maybeReplaceStmt (eol : Text) (gen : GenFn)
    (existing : Option JVal) (desired : JVal) (name : String) : List Edit :=
  match existing with
  | none => []
  | some ex =>
      if stmtLooksOk ex name then []
      else [⟨startOf ex, endOf ex, toEol eol (gen desired)⟩]

/-- The up-front work of `patchPreinject` (source lines 130-269): locate
the anchor method and return statement, classify the five fragments, and
accumulate the edit set, ending with the unconditional re-render edit for
the return statement. -/
structure PreinjectPlan where
  returnStmt : JVal
  edits : List Edit
deriving DecidableEq

def preinjectPlan (code : Text) (ast : JVal) (parse : ParseFn) (gen : GenFn) :
    Except PatchError PreinjectPlan :=
  let eol := detectEol code
  match findFirst isGetInjectedMethod ast none with
  | none => .error ⟨"preinject.js: cannot find ObjectMethod GetInjected"⟩
  | some targetMethod =>
    let bodyStmts := toListJ (getF (getF targetMethod "body") "body")
    match (bodyStmts.filter (fun s =>
        typeOf s == "ReturnStatement" && truthy (getF s "argument") &&
          typeOf (getF s "argument") == "ConditionalExpression")).find? (fun s =>
        typeOf (getF (getF s "argument") "test") == "Identifier" &&
          asStr (getF (getF (getF s "argument") "test") "name") == "isApplied") with
    | none => .error ⟨"preinject.js: cannot find return statement \"return isApplied ? ...\" in GetInjected"⟩
    | some returnStmt =>
      let findVarStmt := fun (name : String) => bodyStmts.find? (fun s =>
        typeOf s == "VariableDeclaration" &&
          (toListJ (getF s "declarations")).any (fun d =>
            typeOf (getF d "id") == "Identifier" &&
              asStr (getF (getF d "id") "name") == name))
      let containerStmt := findVarStmt "container"
      let injectInfoStmt := findVarStmt "injectInfo"
      let injectGmiStmt := findVarStmt "injectGmi"
      let injectOutStmt := findVarStmt "injectOut"
      let earlyReturnStmt := bodyStmts.find? (fun s =>
        typeOf s == "IfStatement" &&
        typeOf (getF s "test") == "LogicalExpression" &&
        asStr (getF (getF s "test") "operator") == "&&" &&
        typeOf (getF (getF s "test") "left") == "Identifier" &&
        asStr (getF (getF (getF s "test") "left") "name") == "isApplied" &&
        typeOf (getF (getF s "test") "right") == "Identifier" &&
        asStr (getF (getF (getF s "test") "right") "name") == "done" &&
        typeOf (getF s "consequent") == "ReturnStatement")
      let desiredAst := toListJ (getF (getF (parse preinjectSnippet.data) "program") "body")
      let desiredContainer := desiredAst.getD 0 JVal.null
      let desiredInjectInfo := desiredAst.getD 1 JVal.null
      let desiredInjectGmi := desiredAst.getD 2 JVal.null
      let desiredInjectOut := desiredAst.getD 3 JVal.null
      let desiredEarlyReturn := desiredAst.getD 4 JVal.null
      let indent := getColumnAt code (startOf returnStmt) eol
      let replaceEdits :=
        maybeReplaceStmt eol gen containerStmt desiredContainer "container" ++
        maybeReplaceStmt eol gen injectInfoStmt desiredInjectInfo "injectInfo" ++
        maybeReplaceStmt eol gen injectGmiStmt desiredInjectGmi "injectGmi" ++
        maybeReplaceStmt eol gen injectOutStmt desiredInjectOut "injectOut" ++
        maybeReplaceStmt eol gen earlyReturnStmt desiredEarlyReturn "earlyReturn"
      let insertStmts :=
        (if containerStmt.isNone then [desiredContainer] else []) ++
        (if injectInfoStmt.isNone then [desiredInjectInfo] else []) ++
        (if injectGmiStmt.isNone then [desiredInjectGmi] else []) ++
        (if injectOutStmt.isNone then [desiredInjectOut] else []) ++
        (if earlyReturnStmt.isNone then [desiredEarlyReturn] else [])
      let insertEdits :=
        if insertStmts.length ≠ 0 then
          let insertText :=
            toEol eol (indentLines (List.intercalate ['\n'] (insertStmts.map gen)) indent) ++ eol
          [⟨startOf returnStmt, startOf returnStmt, insertText⟩]
        else []
      let retNode := renameInject (getF returnStmt "argument")
      let returnStmtRenamed := setF returnStmt "argument" retNode
      let patchedRetText := toEol eol (gen returnStmtRenamed)
      let edits := replaceEdits ++ insertEdits ++
        [⟨startOf returnStmt, endOf returnStmt, patchedRetText⟩]
      .ok ⟨returnStmt, edits⟩

/-- `patchPreinject`: apply the plan's edit set and write back only when
the result differs from the original buffer. -/
def patchPreinject (code : Text) (ast : JVal) (parse : ParseFn) (gen : GenFn) :
    Except PatchError PatchResult :=
  match preinjectPlan code ast parse gen with
  | .error e => .error e
  | .ok pl =>
      let out := applyEdits code pl.edits
      if out = code then .ok ⟨false, none⟩ else .ok ⟨true, some out⟩

/-- `patchContentIndex` (source lines 277-341). -/
def patchContentIndex (code : Text) (ast : JVal) (parse : ParseFn) (gen : GenFn) :
    Except PatchError PatchResult :=
  let eol := detectEol code
  match findFirst isInitFn ast none with
  | none => .error ⟨"content/index.js: cannot find function init"⟩
  | some initFn =>
    let bodyStmts := toListJ (getF (getF initFn "body") "body")
    let infoPred := fun (s : JVal) =>
      typeOf s == "VariableDeclaration" &&
      (let d := (toListJ (getF s "declarations")).getD 0 JVal.null
       truthy d &&
       typeOf (getF d "id") == "Identifier" &&
       asStr (getF (getF d "id") "name") == "info" &&
       typeOf (getF d "init") == "MemberExpression" &&
       typeOf (getF (getF d "init") "object") == "Identifier" &&
       asStr (getF (getF (getF d "init") "object") "name") == "data" &&
       typeOf (getF (getF d "init") "property") == "Identifier" &&
       asStr (getF (getF (getF d "init") "property") "name") == "info")
    match bodyStmts.find? infoPred with
    | none => .error ⟨"content/index.js: cannot find statement \"const info = data.info;\""⟩
    | some infoStmt =>
      let idx := bodyStmts.findIdx infoPred
      let next := bodyStmts.getD (idx + 1) JVal.null
      let desiredIfAst :=
        (toListJ (getF (getF (parse contentIndexSnippet.data) "program") "body")).getD 0 JVal.null
      let isOurIf :=
        typeOf next == "IfStatement" &&
          hasNode next (fun n _ =>
            typeOf n == "StringLiteral" && asStr (getF n "value") == "container")
      if isOurIf then
        let desiredText := toEol eol (gen desiredIfAst)
        let currentOk := hasNode next (fun n _ =>
          typeOf n == "UnaryExpression" &&
          asStr (getF n "operator") == "void" &&
          typeOf (getF n "argument") == "Identifier" &&
          asStr (getF (getF n "argument") "name") == "e")
        if currentOk then .ok ⟨false, none⟩
        else
          let out := applyEdits code [⟨startOf next, endOf next, desiredText⟩]
          .ok ⟨true, some out⟩
      else
        let indent := getColumnAt code (startOf infoStmt) eol
        let insertText := eol ++ toEol eol (indentLines (gen desiredIfAst) indent) ++ eol
        let out := applyEdits code [⟨endOf infoStmt, endOf infoStmt, insertText⟩]
        .ok ⟨true, some out⟩

/-- The search predicate of `patchInject` over `injectScripts`: an `=`
assignment to `info.gmi` whose right side is either an `assign(...)` call
with a first argument other than `info.gmi || createNullObj()`, or a plain
object literal. -/
def injectAssignPred (n : JVal) (_ : Option JVal) : Bool :=
  typeOf n == "AssignmentExpression" &&
  asStr (getF n "operator") == "=" &&
  typeOf (getF n "left") == "MemberExpression" &&
  typeOf (getF (getF n "left") "object") == "Identifier" &&
  asStr (getF (getF (getF n "left") "object") "name") == "info" &&
  (if typeOf (getF (getF n "left") "property") == "Identifier" then
     asStr (getF (getF (getF n "left") "property") "name")
   else "") == "gmi" &&
  (let r := getF n "right"
   if typeOf r == "CallExpression" &&
        typeOf (getF r "callee") == "Identifier" &&
        asStr (getF (getF r "callee") "name") == "assign" then
     let a0 := (toListJ (getF r "arguments")).getD 0 JVal.null
     !(typeOf a0 == "LogicalExpression" &&
       asStr (getF a0 "operator") == "||" &&
       typeOf (getF a0 "left") == "MemberExpression" &&
       typeOf (getF (getF a0 "left") "object") == "Identifier" &&
       asStr (getF (getF (getF a0 "left") "object") "name") == "info" &&
       typeOf (getF (getF a0 "left") "property") == "Identifier" &&
       asStr (getF (getF (getF a0 "left") "property") "name") == "gmi" &&
       typeOf (getF a0 "right") == "CallExpression" &&
       typeOf (getF (getF a0 "right") "callee") == "Identifier" &&
       asStr (getF (getF (getF a0 "right") "callee") "name") == "createNullObj")
   else typeOf r == "ObjectExpression")

/-- `patchInject` (source lines 343-408). -/
def patchInject (code : Text) (ast : JVal) (parse : ParseFn) (gen : GenFn) :
    Except PatchError PatchResult :=
  let eol := detectEol code
  match findFirst isInjectScriptsFn ast none with
  | none => .error ⟨"inject.js: cannot find function injectScripts"⟩
  | some injectScriptsFn =>
    match findFirst injectAssignPred injectScriptsFn none with
    | none => .error ⟨"inject.js: cannot find assignment \"info.gmi = \x7b ... \x7d\" in injectScripts"⟩
    | some assignExpr =>
      let r := getF assignExpr "right"
      if typeOf r == "CallExpression" &&
           typeOf (getF r "callee") == "Identifier" &&
           asStr (getF (getF r "callee") "name") == "assign" then
        .ok ⟨false, none⟩
      else
        let desiredExprAst :=
          getF ((toListJ (getF (getF (parse injectSnippet.data) "program") "body")).getD 0
            JVal.null) "expression"
        let desiredFilled := setF desiredExprAst "arguments"
          (setIdx (getF desiredExprAst "arguments") 1 r)
        let replacement := toEol eol (gen desiredFilled)
        let out := applyEdits code [⟨startOf r, endOf r, replacement⟩]
        .ok ⟨true, some out⟩

/-- The member loop of `patchTypes`: stop with `containerFound` at the
first `container` property signature, else remember the last `isIncognito`
property signature. -/
inductive ScanRes where
  | containerFound : ScanRes
  | done : Option JVal → ScanRes
deriving DecidableEq

def scanGmiMembers : List JVal → Option JVal → ScanRes
  | [], acc => .done acc
  | mm :: rest, acc =>
      if typeOf mm != "TSPropertySignature" then scanGmiMembers rest acc
      else
        let n2 := if typeOf (getF mm "key") == "Identifier" then
          asStr (getF (getF mm "key") "name") else ""
        if n2 == "container" then .containerFound
        else if n2 == "isIncognito" then scanGmiMembers rest (some mm)
        else scanGmiMembers rest acc

/-- `patchTypes` (source lines 410-468); it uses no generator. -/
def patchTypes (code : Text) (ast : JVal) : Except PatchError PatchResult :=
  let eol := detectEol code
  match findFirst isVMInjectionNs ast none with
  | none => .error ⟨"types.d.ts: cannot find namespace VMInjection"⟩
  | some vmInjNs =>
    match findFirst (fun n _ =>
        typeOf n == "TSInterfaceDeclaration" && isIdentNamed (getF n "id") "Info")
        vmInjNs none with
    | none => .error ⟨"types.d.ts: cannot find interface VMInjection.Info"⟩
    | some infoIface =>
      match findFirst (fun n _ =>
          typeOf n == "TSPropertySignature" &&
          (if typeOf (getF n "key") == "Identifier" then
             asStr (getF (getF n "key") "name") else "") == "gmi" &&
          truthy (getF (getF n "typeAnnotation") "typeAnnotation") &&
          typeOf (getF (getF n "typeAnnotation") "typeAnnotation") == "TSTypeLiteral")
          infoIface none with
      | none => .error ⟨"types.d.ts: cannot find VMInjection.Info.gmi"⟩
      | some gmiProp =>
        let gmiType := getF (getF gmiProp "typeAnnotation") "typeAnnotation"
        match scanGmiMembers (toListJ (getF gmiType "members")) none with
        | .containerFound => .ok ⟨false, none⟩
        | .done none => .error ⟨"types.d.ts: cannot find VMInjection.Info.gmi.isIncognito property"⟩
        | .done (some isIncognitoProp) =>
          let indent := getColumnAt code (startOf isIncognitoProp) eol
          let insertion := eol ++ List.replicate indent.toNat ' ' ++ "container?: string;".data
          let out := applyEdits code
            [⟨endOf isIncognitoProp, endOf isIncognitoProp, insertion⟩]
          .ok ⟨true, some out⟩

/-- Did a rule classify its file as already current (returned `false`,
wrote nothing)?  This is the no-op decision of the shared rule protocol. -/
def isNoop : Except PatchError PatchResult → Bool
  | .ok r => !r.changed
  | .error _ => false

/-!
### Orchestrator exit codes (source lines 470-504)
-/

/-- A propagated JS error at the process boundary (`e?.name` is what the
top-level handler inspects; `PatchError` instances carry `'PatchError'`). -/
structure JsError where
  name : String
  message : String
deriving DecidableEq

/-- `main`: run the four rules fail-fast, collecting the relative paths of
changed files; a rule's `PatchError` propagates with name `'PatchError'`. -/
def mainResult (r1 r2 r3 r4 : Except PatchError PatchResult) :
    Except JsError (List String) :=
  match r1 with
  | .error e => .error ⟨"PatchError", e.message⟩
  | .ok a1 =>
    match r2 with
    | .error e => .error ⟨"PatchError", e.message⟩
    | .ok a2 =>
      match r3 with
      | .error e => .error ⟨"PatchError", e.message⟩
      | .ok a3 =>
        match r4 with
        | .error e => .error ⟨"PatchError", e.message⟩
        | .ok a4 =>
          .ok ((if a1.changed then ["src/background/utils/preinject.js"] else []) ++
               (if a2.changed then ["src/injected/content/index.js"] else []) ++
               (if a3.changed then ["src/injected/content/inject.js"] else []) ++
               (if a4.changed then ["src/types.d.ts"] else []))

/-- The top-level `try/catch`: exit 0 on normal completion, else
`e?.name === 'PatchError' ? 2 : 1`. -/
def processExitCode {α : Type} : Except JsError α → Nat
  | .ok _ => 0
  | .error e => if e.name == "PatchError" then 2 else 1

/-!
### Concrete files and their Babel parses

The remaining definitions are concrete input files (as byte buffers) and
their Babel syntax trees, hand-transcribed with the spans Babel assigns
(statement spans include the trailing semicolon; methods start at their
key).  Each claim keeps its own copies because counterexample and witness
artifacts are claim-local.
-/

def jarr (l : List JVal) : JVal := .arr (JArr.ofList l)

def mkNode (ty : String) (s e : Nat) (fields : List (String × JVal)) : JVal :=
  .obj (JFields.ofList (("type", .str ty) :: ("start", .num s) :: ("end", .num e) :: fields))

def ident (s e : Nat) (nm : String) : JVal := mkNode "Identifier" s e [("name", .str nm)]

/-- `inject.js` before patching: `injectScripts` assigns a plain object
literal to `info.gmi`. -/
def c1code0 : Text :=
  "function injectScripts() \x7b\n  info.gmi = \x7b\x7d;\n\x7d\n".data

/-- `inject.js` after one run of `patchInject` (the canonical patched
form). -/
def c1code2 : Text :=
  "function injectScripts() \x7b\n  info.gmi = assign(info.gmi || createNullObj(), \x7b\x7d);\n\x7d\n".data

def c1ast0 : JVal :=
  mkNode "File" 0 46 [("program", mkNode "Program" 0 46 [
    ("sourceType", .str "module"),
    ("body", jarr [
      mkNode "FunctionDeclaration" 0 45 [
        ("id", ident 9 22 "injectScripts"),
        ("generator", .bool false),
        ("async", .bool false),
        ("params", jarr []),
        ("body", mkNode "BlockStatement" 25 45 [
          ("body", jarr [
            mkNode "ExpressionStatement" 29 43 [
              ("expression", mkNode "AssignmentExpression" 29 42 [
                ("operator", .str "="),
                ("left", mkNode "MemberExpression" 29 37 [
                  ("object", ident 29 33 "info"),
                  ("computed", .bool false),
                  ("property", ident 34 37 "gmi")]),
                ("right", mkNode "ObjectExpression" 40 42 [
                  ("properties", jarr [])])])]])])]])])]

/-- Babel parse of the snippet `assign(info.gmi || createNullObj(), {});`. -/
def c1snippetAst : JVal :=
  mkNode "File" 0 40 [("program", mkNode "Program" 0 40 [
    ("sourceType", .str "module"),
    ("body", jarr [
      mkNode "ExpressionStatement" 0 40 [
        ("expression", mkNode "CallExpression" 0 39 [
          ("callee", ident 0 6 "assign"),
          ("arguments", jarr [
            mkNode "LogicalExpression" 7 34 [
              ("left", mkNode "MemberExpression" 7 15 [
                ("object", ident 7 11 "info"),
                ("computed", .bool false),
                ("property", ident 12 15 "gmi")]),
              ("operator", .str "||"),
              ("right", mkNode "CallExpression" 19 34 [
                ("callee", ident 19 32 "createNullObj"),
                ("arguments", jarr [])])],
            mkNode "ObjectExpression" 36 38 [("properties", jarr [])]])])]])])]

/-- Babel parse of `c1code2`: the right side is the canonical
`assign(info.gmi || createNullObj(), {})` call. -/
def c1ast2 : JVal :=
  let canonFirstArg : JVal :=
    mkNode "LogicalExpression" 47 74 [
      ("left", mkNode "MemberExpression" 47 55 [
        ("object", ident 47 51 "info"),
        ("computed", .bool false),
        ("property", ident 52 55 "gmi")]),
      ("operator", .str "||"),
      ("right", mkNode "CallExpression" 59 74 [
        ("callee", ident 59 72 "createNullObj"),
        ("arguments", jarr [])])]
  let rhs : JVal :=
    mkNode "CallExpression" 40 79 [
      ("callee", ident 40 46 "assign"),
      ("arguments", jarr [canonFirstArg,
        mkNode "ObjectExpression" 76 78 [("properties", jarr [])]])]
  let assignNode : JVal :=
    mkNode "AssignmentExpression" 29 79 [
      ("operator", .str "="),
      ("left", mkNode "MemberExpression" 29 37 [
        ("object", ident 29 33 "info"),
        ("computed", .bool false),
        ("property", ident 34 37 "gmi")]),
      ("right", rhs)]
  let fn : JVal :=
    mkNode "FunctionDeclaration" 0 82 [
      ("id", ident 9 22 "injectScripts"),
      ("generator", .bool false),
      ("async", .bool false),
      ("params", jarr []),
      ("body", mkNode "BlockStatement" 25 82 [
        ("body", jarr [mkNode "ExpressionStatement" 29 80 [("expression", assignNode)]])])]
  mkNode "File" 0 83 [("program", mkNode "Program" 0 83 [
    ("sourceType", .str "module"),
    ("body", jarr [fn])])]

def c1parse : ParseFn := fun t => if t = injectSnippet.data then c1snippetAst else JVal.null

/-- Babel generator output for the filled template (deterministic on the
one node `patchInject` renders in this scenario). -/
def c1gen : GenFn := fun _ => "assign(info.gmi || createNullObj(), \x7b\x7d)".data

/-- C6 artifacts: an `inject.js` whose assignment is already an `assign`
call with a non-canonical first argument... -/
def c6codeStale : Text :=
  "function injectScripts() \x7b\n  info.gmi = assign(w, \x7b\x7d);\n\x7d\n".data

def c6astStale : JVal :=
  mkNode "File" 0 57 [("program", mkNode "Program" 0 57 [
    ("sourceType", .str "module"),
    ("body", jarr [
      mkNode "FunctionDeclaration" 0 56 [
        ("id", ident 9 22 "injectScripts"),
        ("generator", .bool false),
        ("async", .bool false),
        ("params", jarr []),
        ("body", mkNode "BlockStatement" 25 56 [
          ("body", jarr [
            mkNode "ExpressionStatement" 29 54 [
              ("expression", mkNode "AssignmentExpression" 29 53 [
                ("operator", .str "="),
                ("left", mkNode "MemberExpression" 29 37 [
                  ("object", ident 29 33 "info"),
                  ("computed", .bool false),
                  ("property", ident 34 37 "gmi")]),
                ("right", mkNode "CallExpression" 40 53 [
                  ("callee", ident 40 46 "assign"),
                  ("arguments", jarr [
                    ident 47 48 "w",
                    mkNode "ObjectExpression" 50 52 [
                      ("properties", jarr [])]])])])]])])]])])]

/-- ... and its own copies of the unpatched and canonically patched file. -/
def c6code0 : Text :=
  "function injectScripts() \x7b\n  info.gmi = \x7b\x7d;\n\x7d\n".data

def c6codeCanon : Text :=
  "function injectScripts() \x7b\n  info.gmi = assign(info.gmi || createNullObj(), \x7b\x7d);\n\x7d\n".data

def c6ast0 : JVal := c1ast0

def c6astCanon : JVal := c1ast2

def c6parse : ParseFn := fun t => if t = injectSnippet.data then c1snippetAst else JVal.null

def c6gen : GenFn := fun _ => "assign(info.gmi || createNullObj(), \x7b\x7d)".data

def c6repl : Text := "assign(info.gmi || createNullObj(), \x7b\x7d)".data

/-!
### A `preinject.js` in its final shape (C5 artifacts)

`c5code1` is a file whose `GetInjected` method already carries all five
fragments in a shape accepted by `stmtLooksOk`, with the return statement
formatted exactly as the generator renders it.  `c5code2` is the same file
with the blank between `isApplied` and `?` inside the return statement
written as a tab instead of a space: every token keeps its offset, line
and column, so Babel produces the identical syntax tree for both buffers.
-/

def c5code1 : Text :=
  ("x(\x7b\n  GetInjected() \x7b\n    const container = f(isApplied, tabId, cookieStoreId, browser.tabs, p.catch), injectInfo = 0, injectGmi = 0, injectOut = g(container, injectGmi);\n    if (isApplied && done) return container;\n    return isApplied ? injectOut : injectOut;\n  \x7d\n\x7d);\n").data

def c5code2 : Text :=
  ("x(\x7b\n  GetInjected() \x7b\n    const container = f(isApplied, tabId, cookieStoreId, browser.tabs, p.catch), injectInfo = 0, injectGmi = 0, injectOut = g(container, injectGmi);\n    if (isApplied && done) return container;\n    return isApplied\t? injectOut : injectOut;\n  \x7d\n\x7d);\n").data

def c5decl : JVal :=
  let d1 : JVal :=
    mkNode "VariableDeclarator" 32 101 [
      ("id", ident 32 41 "container"),
      ("init", mkNode "CallExpression" 44 101 [
        ("callee", ident 44 45 "f"),
        ("arguments", jarr [
          ident 46 55 "isApplied",
          ident 57 62 "tabId",
          ident 64 77 "cookieStoreId",
          mkNode "MemberExpression" 79 91 [
            ("object", ident 79 86 "browser"),
            ("computed", .bool false),
            ("property", ident 87 91 "tabs")],
          mkNode "MemberExpression" 93 100 [
            ("object", ident 93 94 "p"),
            ("computed", .bool false),
            ("property", ident 95 100 "catch")]])])]
  let d2 : JVal :=
    mkNode "VariableDeclarator" 103 117 [
      ("id", ident 103 113 "injectInfo"),
      ("init", mkNode "NumericLiteral" 116 117 [("value", .num 0)])]
  let d3 : JVal :=
    mkNode "VariableDeclarator" 119 132 [
      ("id", ident 119 128 "injectGmi"),
      ("init", mkNode "NumericLiteral" 131 132 [("value", .num 0)])]
  let d4 : JVal :=
    mkNode "VariableDeclarator" 134 169 [
      ("id", ident 134 143 "injectOut"),
      ("init", mkNode "CallExpression" 146 169 [
        ("callee", ident 146 147 "g"),
        ("arguments", jarr [ident 148 157 "container", ident 159 168 "injectGmi"])])]
  mkNode "VariableDeclaration" 26 170 [
    ("kind", .str "const"),
    ("declarations", jarr [d1, d2, d3, d4])]

def c5if : JVal :=
  mkNode "IfStatement" 175 215 [
    ("test", mkNode "LogicalExpression" 179 196 [
      ("left", ident 179 188 "isApplied"),
      ("operator", .str "&&"),
      ("right", ident 192 196 "done")]),
    ("consequent", mkNode "ReturnStatement" 198 215 [
      ("argument", ident 205 214 "container")]),
    ("alternate", .null)]

def c5ret : JVal :=
  mkNode "ReturnStatement" 220 261 [
    ("argument", mkNode "ConditionalExpression" 227 260 [
      ("test", ident 227 236 "isApplied"),
      ("consequent", ident 239 248 "injectOut"),
      ("alternate", ident 251 260 "injectOut")])]

def c5ast : JVal :=
  let method : JVal :=
    mkNode "ObjectMethod" 6 265 [
      ("method", .bool true),
      ("key", ident 6 17 "GetInjected"),
      ("computed", .bool false),
      ("kind", .str "method"),
      ("id", .null),
      ("generator", .bool false),
      ("async", .bool false),
      ("params", jarr []),
      ("body", mkNode "BlockStatement" 20 265 [
        ("body", jarr [c5decl, c5if, c5ret])])]
  mkNode "File" 0 270 [("program", mkNode "Program" 0 270 [
    ("sourceType", .str "module"),
    ("body", jarr [
      mkNode "ExpressionStatement" 0 269 [
        ("expression", mkNode "CallExpression" 0 268 [
          ("callee", ident 0 1 "x"),
          ("arguments", jarr [
            mkNode "ObjectExpression" 2 267 [
              ("properties", jarr [method])]])])]])])]

/-- The snippet parse is irrelevant in the already-current scenario (the
desired statements are never rendered); the oracle may be anything. -/
def c5parse : ParseFn := fun _ => JVal.null

/-- Babel generator output for the (rename is a no-op here) return
statement. -/
def c5gen : GenFn := fun _ => "return isApplied ? injectOut : injectOut;".data

/-- The plan `preinjectPlan` computes on the C5 artifacts (extracted so a
witness can discharge a hypothesis by `rfl`). -/
def c5plan : PreinjectPlan :=
  match preinjectPlan c5code1 c5ast c5parse c5gen with
  | .ok pl => pl
  | .error _ => ⟨JVal.null, []⟩

/-!
### A minimal unpatched `preinject.js` (C10 witness artifacts)
-/

def c10code : Text :=
  "x(\x7b\n  GetInjected() \x7b\n    return isApplied ? a : b;\n  \x7d\n\x7d);\n".data

def c10ast : JVal :=
  let method : JVal :=
    mkNode "ObjectMethod" 6 55 [
      ("method", .bool true),
      ("key", ident 6 17 "GetInjected"),
      ("computed", .bool false),
      ("kind", .str "method"),
      ("params", jarr []),
      ("body", mkNode "BlockStatement" 20 55 [
        ("body", jarr [
          mkNode "ReturnStatement" 26 51 [
            ("argument", mkNode "ConditionalExpression" 33 50 [
              ("test", ident 33 42 "isApplied"),
              ("consequent", ident 45 46 "a"),
              ("alternate", ident 49 50 "b")])]])])]
  mkNode "File" 0 60 [("program", mkNode "Program" 0 60 [
    ("sourceType", .str "module"),
    ("body", jarr [
      mkNode "ExpressionStatement" 0 59 [
        ("expression", mkNode "CallExpression" 0 58 [
          ("callee", ident 0 1 "x"),
          ("arguments", jarr [
            mkNode "ObjectExpression" 2 57 [
              ("properties", jarr [method])]])])]])])]

def c10parse : ParseFn := fun _ => JVal.null

def c10gen : GenFn := fun _ => "Z".data

/-- The plan `preinjectPlan` computes on the C10 artifacts (extracted so
the witness can discharge the theorem's hypothesis by `rfl`). -/
def c10plan : PreinjectPlan :=
  match preinjectPlan c10code c10ast c10parse c10gen with
  | .ok pl => pl
  | .error _ => ⟨JVal.null, []⟩

/-- An AST containing no anchor at all (C2 witness). -/
def c2ast : JVal :=
  mkNode "File" 0 2 [("program", mkNode "Program" 0 2 [
    ("sourceType", .str "module"),
    ("body", jarr [])])]

def c2code : Text := "x;".data

def c2parse : ParseFn := fun _ => JVal.null

def c2gen : GenFn := fun _ => [] 

/-!
## Theorems

First the traversal lemmas: `findFirst` returns the first match of the
pre-order visit sequence, and `walk` stops iff some visited node triggers
the stop sentinel.
-/

theorem option_map_or {α β : Type} (f : α → β) (a b : Option α) :
    (a.or b).map f = (a.map f).or (b.map f) := by
  cases a <;> rfl

mutual
theorem findFirst_eq_pre (pred : JVal → Option JVal → Bool) :
    ∀ (n : JVal) (p : Option JVal),
    findFirst pred n p =
      ((preW n p).find? (fun x => pred x.1 x.2)).map Prod.fst
  | .obj fs, p => by
      rw [findFirst, preW, List.find?]
      by_cases h : pred (.obj fs) p = true
      · simp [h]
      · simp only [Bool.not_eq_true] at h
        simp [h, findFields_eq_pre pred fs (.obj fs)]
  | .arr l, p => by
      rw [findFirst, preW, List.find?]
      by_cases h : pred (.arr l) p = true
      · simp [h]
      · simp only [Bool.not_eq_true] at h
        simp [h, findElems_eq_pre pred l (.arr l)]
  | .str _, _ => rfl
  | .num _, _ => rfl
  | .bool _, _ => rfl
  | .null, _ => rfl

theorem findFields_eq_pre (pred : JVal → Option JVal → Bool) :
    ∀ (fs : JFields) (n : JVal),
    findFields pred fs n =
      ((preFields fs n).find? (fun x => pred x.1 x.2)).map Prod.fst
  | .fnil, _ => rfl
  | .fcons k (.obj fs') rest, n => by
      rw [findFields, preFields, List.find?_append, option_map_or,
        findFirst_eq_pre pred (.obj fs') (some n), findFields_eq_pre pred rest n]
  | .fcons k (.arr items) rest, n => by
      rw [findFields, preFields, List.find?_append, option_map_or,
        findItems_eq_pre pred items n, findFields_eq_pre pred rest n]
  | .fcons _ (.str _) rest, n => findFields_eq_pre pred rest n
  | .fcons _ (.num _) rest, n => findFields_eq_pre pred rest n
  | .fcons _ (.bool _) rest, n => findFields_eq_pre pred rest n
  | .fcons _ .null rest, n => findFields_eq_pre pred rest n

theorem findItems_eq_pre (pred : JVal → Option JVal → Bool) :
    ∀ (l : JArr) (n : JVal),
    findItems pred l n =
      ((preItems l n).find? (fun x => pred x.1 x.2)).map Prod.fst
  | .anil, _ => rfl
  | .acons it rest, n => by
      rw [findItems, preItems, List.find?_append, option_map_or,
        findFirst_eq_pre pred it (some n), findItems_eq_pre pred rest n]

theorem findElems_eq_pre (pred : JVal → Option JVal → Bool) :
    ∀ (l : JArr) (n : JVal),
    findElems pred l n =
      ((preElems l n).find? (fun x => pred x.1 x.2)).map Prod.fst
  | .anil, _ => rfl
  | .acons (.obj fs) rest, n => by
      rw [findElems, preElems, List.find?_append, option_map_or,
        findFirst_eq_pre pred (.obj fs) (some n), findElems_eq_pre pred rest n]
  | .acons (.arr items) rest, n => by
      rw [findElems, preElems, List.find?_append, option_map_or,
        findItems_eq_pre pred items n, findElems_eq_pre pred rest n]
  | .acons (.str _) rest, n => findElems_eq_pre pred rest n
  | .acons (.num _) rest, n => findElems_eq_pre pred rest n
  | .acons (.bool _) rest, n => findElems_eq_pre pred rest n
  | .acons .null rest, n => findElems_eq_pre pred rest n
end

mutual
theorem walk_eq_pre (vis : JVal → Option JVal → Bool) :
    ∀ (n : JVal) (p : Option JVal),
    walk vis n p = (preW n p).any (fun x => vis x.1 x.2)
  | .obj fs, p => by
      rw [walk, preW, List.any_cons]
      by_cases h : vis (.obj fs) p = true
      · simp [h]
      · simp only [Bool.not_eq_true] at h
        simp [h, walkFields_eq_pre vis fs (.obj fs)]
  | .arr l, p => by
      rw [walk, preW, List.any_cons]
      by_cases h : vis (.arr l) p = true
      · simp [h]
      · simp only [Bool.not_eq_true] at h
        simp [h, walkElems_eq_pre vis l (.arr l)]
  | .str _, _ => rfl
  | .num _, _ => rfl
  | .bool _, _ => rfl
  | .null, _ => rfl

theorem walkFields_eq_pre (vis : JVal → Option JVal → Bool) :
    ∀ (fs : JFields) (n : JVal),
    walkFields vis fs n = (preFields fs n).any (fun x => vis x.1 x.2)
  | .fnil, _ => rfl
  | .fcons k (.obj fs') rest, n => by
      rw [walkFields, preFields, List.any_append,
        walk_eq_pre vis (.obj fs') (some n), walkFields_eq_pre vis rest n]
  | .fcons k (.arr items) rest, n => by
      rw [walkFields, preFields, List.any_append,
        walkItems_eq_pre vis items n, walkFields_eq_pre vis rest n]
  | .fcons _ (.str _) rest, n => walkFields_eq_pre vis rest n
  | .fcons _ (.num _) rest, n => walkFields_eq_pre vis rest n
  | .fcons _ (.bool _) rest, n => walkFields_eq_pre vis rest n
  | .fcons _ .null rest, n => walkFields_eq_pre vis rest n

theorem walkItems_eq_pre (vis : JVal → Option JVal → Bool) :
    ∀ (l : JArr) (n : JVal),
    walkItems vis l n = (preItems l n).any (fun x => vis x.1 x.2)
  | .anil, _ => rfl
  | .acons it rest, n => by
      rw [walkItems, preItems, List.any_append,
        walk_eq_pre vis it (some n), walkItems_eq_pre vis rest n]

theorem walkElems_eq_pre (vis : JVal → Option JVal → Bool) :
    ∀ (l : JArr) (n : JVal),
    walkElems vis l n = (preElems l n).any (fun x => vis x.1 x.2)
  | .anil, _ => rfl
  | .acons (.obj fs) rest, n => by
      rw [walkElems, preElems, List.any_append,
        walk_eq_pre vis (.obj fs) (some n), walkElems_eq_pre vis rest n]
  | .acons (.arr items) rest, n => by
      rw [walkElems, preElems, List.any_append,
        walkItems_eq_pre vis items n, walkElems_eq_pre vis rest n]
  | .acons (.str _) rest, n => walkElems_eq_pre vis rest n
  | .acons (.num _) rest, n => walkElems_eq_pre vis rest n
  | .acons (.bool _) rest, n => walkElems_eq_pre vis rest n
  | .acons .null rest, n => walkElems_eq_pre vis rest n
end

/-- A root whose pre-order sequence contains no match yields no find. -/
theorem findFirst_eq_none (pred : JVal → Option JVal → Bool) (n : JVal)
    (h : ∀ x ∈ preW n none, pred x.1 x.2 = false) :
    findFirst pred n none = none := by
  rw [findFirst_eq_pre]
  have : (preW n none).find? (fun x => pred x.1 x.2) = none := by
    rw [List.find?_eq_none]
    intro x hx
    simp [h x hx]
  rw [this]
  rfl

/-!
### The back-to-front splicer equals one-pass substitution
-/

instance instDecEditDisjoint (a b : Edit) : Decidable (EditDisjoint a b) := by
  unfold EditDisjoint; infer_instance

theorem chained_mono (text : Text) :
    ∀ (l : List Edit) (k k' : Nat), k ≤ k' → Chained text k' l → Chained text k l
  | [], _, _, _, _ => trivial
  | e :: rest, k, k', hkk, hch =>
      ⟨le_trans hkk hch.1, hch.2.1, hch.2.2.1, hch.2.2.2⟩

theorem onePassFrom_take (text : Text) :
    ∀ (l : List Edit) (k : Nat), Chained text k l → k ≤ text.length →
    (onePassFrom text 0 l).take k = text.take k
  | [], k, _, _ => by simp [onePassFrom]
  | e :: rest, k, hch, hk => by
    obtain ⟨h1, h2, h3, _⟩ := hch
    have hlen : (text.take e.start).length = e.start := by
      rw [List.length_take]
      omega
    simp only [onePassFrom, List.drop_zero, List.append_assoc]
    rw [List.take_append_of_le_length (by omega), List.take_take, min_eq_left h1]

theorem onePassFrom_drop (text : Text) :
    ∀ (l : List Edit) (k : Nat), Chained text k l → k ≤ text.length →
    (onePassFrom text 0 l).drop k = onePassFrom text k l
  | [], k, _, _ => by simp [onePassFrom]
  | e :: rest, k, hch, hk => by
    obtain ⟨h1, h2, h3, _⟩ := hch
    have hlen : (text.take e.start).length = e.start := by
      rw [List.length_take]
      omega
    simp only [onePassFrom, List.drop_zero, List.append_assoc]
    rw [List.drop_append_of_le_length (by omega)]

theorem foldr_splice_eq (text : Text) :
    ∀ (l : List Edit) (k : Nat), Chained text k l →
    l.foldr (fun e acc => spliceEdit acc e) text = onePassFrom text 0 l
  | [], _, _ => rfl
  | e :: rest, k, hch => by
    obtain ⟨h1, h2, h3, h4⟩ := hch
    rw [List.foldr_cons, foldr_splice_eq text rest e.endPos h4]
    show spliceEdit (onePassFrom text 0 rest) e = _
    rw [spliceEdit,
      onePassFrom_take text rest e.start (chained_mono text rest e.start e.endPos h2 h4)
        (le_trans h2 h3),
      onePassFrom_drop text rest e.endPos h4 h3]
    simp [onePassFrom]

theorem chained_of_pairwise (text : Text) :
    ∀ (l : List Edit) (k : Nat),
    l.Pairwise (fun a b => a.endPos ≤ b.start) →
    (∀ e ∈ l, e.start ≤ e.endPos ∧ e.endPos ≤ text.length) →
    (∀ a rest, l = a :: rest → k ≤ a.start) →
    Chained text k l
  | [], _, _, _, _ => trivial
  | a :: rest, k, hp, hv, hh => by
    have hva := hv a (List.mem_cons_self a rest)
    refine ⟨hh a rest rfl, hva.1, hva.2, ?_⟩
    refine chained_of_pairwise text rest a.endPos hp.of_cons
      (fun e he => hv e (List.mem_cons_of_mem a he)) ?_
    intro b rest' hbr
    have hb : b ∈ rest := by rw [hbr]; exact List.mem_cons_self b rest'
    exact (List.pairwise_cons.mp hp).1 b hb

theorem editDisjoint_symm {a b : Edit} (h : EditDisjoint a b) : EditDisjoint b a :=
  h.elim Or.inr Or.inl

theorem asc_pairwise_le (text : Text) (edits : List Edit)
    (hval : ∀ e ∈ edits, e.start ≤ e.endPos ∧ e.endPos ≤ text.length)
    (hdisj : edits.Pairwise EditDisjoint) :
    ((List.insertionSort editLeR edits).reverse).Pairwise (fun a b => a.endPos ≤ b.start) := by
  have hsorted : (List.insertionSort editLeR edits).Pairwise editLeR :=
    List.sorted_insertionSort editLeR edits
  have hperm : (List.insertionSort editLeR edits).Perm edits :=
    List.perm_insertionSort editLeR edits
  have hdisj' : (List.insertionSort editLeR edits).Pairwise EditDisjoint :=
    (List.Perm.pairwise_iff (fun h => editDisjoint_symm h) hperm).mpr hdisj
  rw [List.pairwise_reverse]
  refine (hsorted.and hdisj').imp_of_mem ?_
  intro a b ha hb hab
  obtain ⟨hle, hd⟩ := hab
  have hva := hval a (hperm.subset ha)
  have hvb := hval b (hperm.subset hb)
  unfold editLeR editLe at hle
  simp only [decide_eq_true_eq] at hle
  rcases hd with hd | hd
  · omega
  · omega

/-- C3.  For every text buffer and every edit set whose ranges lie inside
the buffer and are pairwise non-overlapping, `applyEdits` -- which sorts
the edits descending by start (ties by descending end) and splices them
back-to-front -- produces exactly the single-pass substitution of all
replacement texts at their original-buffer offsets (the edits taken in
the ascending order obtained by reversing that sort). -/
theorem applyEdits_eq_single_pass (text : Text) (edits : List Edit)
    (hval : ∀ e ∈ edits, e.start ≤ e.endPos ∧ e.endPos ≤ text.length)
    (hdisj : edits.Pairwise EditDisjoint) :
    applyEdits text edits =
      onePassFrom text 0 ((List.insertionSort editLeR edits).reverse) := by
  have hperm : (List.insertionSort editLeR edits).Perm edits :=
    List.perm_insertionSort editLeR edits
  have hasc := asc_pairwise_le text edits hval hdisj
  have hch : Chained text 0 ((List.insertionSort editLeR edits).reverse) := by
    refine chained_of_pairwise text _ 0 hasc ?_ ?_
    · intro e he
      exact hval e (hperm.subset (List.mem_reverse.mp he))
    · intro a rest h
      exact Nat.zero_le _
  rw [applyEdits]
  conv_lhs => rw [← List.reverse_reverse (List.insertionSort editLeR edits), List.foldl_reverse]
  exact foldr_splice_eq text _ 0 hch

/-- Witness for C3 at a concrete buffer and edit set. -/
theorem applyEdits_eq_single_pass_witness :
    applyEdits "abcdef".data [⟨4, 5, "XY".data⟩, ⟨1, 2, "Z".data⟩] =
      onePassFrom "abcdef".data 0
        (List.insertionSort editLeR [⟨4, 5, "XY".data⟩, ⟨1, 2, "Z".data⟩]).reverse :=
  applyEdits_eq_single_pass "abcdef".data [⟨4, 5, "XY".data⟩, ⟨1, 2, "Z".data⟩]
    (by decide) (by decide)

/-!
### The sort is determined by the keys when keys are pairwise distinct
-/

def editKeyNe (a b : Edit) : Prop := (a.start, a.endPos) ≠ (b.start, b.endPos)

instance instDecEditKeyNe (a b : Edit) : Decidable (editKeyNe a b) := by
  unfold editKeyNe; infer_instance

def editLtStrict (a b : Edit) : Prop :=
  b.start < a.start ∨ (b.start = a.start ∧ b.endPos < a.endPos)

instance : IsAntisymm Edit editLtStrict where
  antisymm a b hab hba := by
    exfalso
    rcases hab with h | ⟨h1, h2⟩ <;> rcases hba with h' | ⟨h1', h2'⟩ <;> omega

theorem editKeyNe_symm {a b : Edit} (h : editKeyNe a b) : editKeyNe b a := by
  unfold editKeyNe at h ⊢
  intro hc
  exact h hc.symm

theorem pairwise_strict_of_sorted (l : List Edit)
    (hs : l.Pairwise editLeR)
    (hk : l.Pairwise editKeyNe) : l.Pairwise editLtStrict := by
  refine (hs.and hk).imp ?_
  intro a b hab
  obtain ⟨hle, hne⟩ := hab
  unfold editLeR editLe at hle
  simp only [decide_eq_true_eq] at hle
  unfold editKeyNe at hne
  unfold editLtStrict
  rcases hle with h | ⟨h1, h2⟩
  · exact Or.inl h
  · refine Or.inr ⟨h1, ?_⟩
    rcases Nat.lt_or_ge b.endPos a.endPos with h3 | h3
    · exact h3
    · exfalso
      exact hne (by simp [Prod.ext_iff]; omega)

theorem insertionSort_eq_of_perm (l l' : List Edit) (hperm : l.Perm l')
    (hk : l.Pairwise editKeyNe) :
    List.insertionSort editLeR l = List.insertionSort editLeR l' := by
  have hp1 : (List.insertionSort editLeR l).Perm l := List.perm_insertionSort editLeR l
  have hp2 : (List.insertionSort editLeR l').Perm l' := List.perm_insertionSort editLeR l'
  have h1 : (List.insertionSort editLeR l).Perm (List.insertionSort editLeR l') :=
    hp1.trans (hperm.trans hp2.symm)
  have hk1 : (List.insertionSort editLeR l).Pairwise editKeyNe :=
    (List.Perm.pairwise_iff (fun h => editKeyNe_symm h) hp1).mpr hk
  have hk2 : (List.insertionSort editLeR l').Pairwise editKeyNe :=
    (List.Perm.pairwise_iff (fun h => editKeyNe_symm h) hp2).mpr
      ((List.Perm.pairwise_iff (fun h => editKeyNe_symm h) hperm).mp hk)
  exact List.eq_of_perm_of_sorted h1
    (pairwise_strict_of_sorted _ (List.sorted_insertionSort editLeR l) hk1)
    (pairwise_strict_of_sorted _ (List.sorted_insertionSort editLeR l') hk2)

/-- C9.  With pairwise distinct `(start, end)` keys (and non-overlapping
ranges, as the rules guarantee), `applyEdits` returns the same output for
every permutation of its input list; the JS code also sorts a `.slice()`
copy, so the caller's array is never mutated -- in this pure embedding
the input list is immutable by construction. -/
theorem applyEdits_perm_invariant (text : Text) (l l' : List Edit)
    (hperm : l.Perm l')
    (hk : l.Pairwise editKeyNe)
    (_hdisj : l.Pairwise EditDisjoint) :
    applyEdits text l = applyEdits text l' := by
  rw [applyEdits, applyEdits, insertionSort_eq_of_perm l l' hperm hk]

/-- Witness for C9 at a concrete buffer, list and permutation. -/
theorem applyEdits_perm_invariant_witness :
    applyEdits "abcdef".data [⟨4, 5, "XY".data⟩, ⟨1, 2, "Z".data⟩] =
      applyEdits "abcdef".data [⟨1, 2, "Z".data⟩, ⟨4, 5, "XY".data⟩] :=
  applyEdits_perm_invariant "abcdef".data
    [⟨4, 5, "XY".data⟩, ⟨1, 2, "Z".data⟩] [⟨1, 2, "Z".data⟩, ⟨4, 5, "XY".data⟩]
    (List.Perm.swap _ _ _) (by decide) (by decide)

/-!
### `getColumnAt` versus the spec's wording
-/

theorem isPrefixOf_nil_eq_false {pat : Text} (hp : pat ≠ []) :
    pat.isPrefixOf ([] : Text) = false := by
  cases pat with
  | nil => exact absurd rfl hp
  | cons c cs => rfl

theorem lastOccurLE_clamp (text pat : Text) (hp : pat ≠ []) :
    ∀ (k : Nat), text.length ≤ k →
    lastOccurLE text pat k = lastOccurLE text pat text.length := by
  intro k
  induction k with
  | zero =>
    intro h
    have h0 : text.length = 0 := Nat.le_zero.mp h
    rw [h0]
  | succ j ih =>
    intro h
    rcases Nat.lt_or_ge text.length (j + 1) with hlt | hge
    · have hocc : occursAt text pat (j + 1) = false := by
        unfold occursAt
        rw [List.drop_eq_nil_of_le (by omega)]
        exact isPrefixOf_nil_eq_false hp
      rw [lastOccurLE, hocc]
      simp only [Bool.false_eq_true, if_false]
      exact ih (by omega)
    · have : text.length = j + 1 := by omega
      rw [this]

/-- Core computation shared by both line-ending branches of
`getColumnAt`. -/
theorem getColumn_core (text : Text) (index : Nat) (pat : Text)
    (hp : pat ≠ []) (hidx : 1 ≤ index) :
    ((index : Int) -
      (if jsLastIndexOf text pat ((index : Int) - 1) < 0 then 0
       else jsLastIndexOf text pat ((index : Int) - 1) + (pat.length : Int))) =
      specColumnAt text index pat := by
  have htn : ((index : Int) - 1).toNat = index - 1 := by omega
  have hocc : lastOccurLE text pat (min (index - 1) text.length) =
      lastOccurLE text pat (index - 1) := by
    rcases le_or_lt (index - 1) text.length with hle | hlt
    · rw [Nat.min_eq_left hle]
    · rw [Nat.min_eq_right (Nat.le_of_lt hlt),
        lastOccurLE_clamp text pat hp (index - 1) (Nat.le_of_lt hlt)]
  unfold jsLastIndexOf specColumnAt
  rw [htn, hocc, if_neg (show ¬ index = 0 by omega)]
  cases h : lastOccurLE text pat (index - 1) with
  | none => norm_num
  | some i =>
    simp only []
    rw [if_neg (show ¬ ((i : Int) < 0) by omega)]

/-- C8 (amended).  For every text, every offset `≥ 1` and either detected
line ending, `getColumnAt` returns exactly the column described by the
spec: the offset minus the end position of the nearest line-ending
occurrence starting strictly before the offset, or the offset itself when
no such occurrence exists.  (At offset `0` the two can differ; see the
counterexample.) -/
theorem getColumnAt_eq_spec (text : Text) (index : Nat) (eol : Text)
    (heol : eol = lfText ∨ eol = crlfText) (hidx : 1 ≤ index) :
    getColumnAt text index eol = specColumnAt text index eol := by
  rcases heol with rfl | rfl
  · show ((index : Int) -
      (if jsLastIndexOf text lfText ((index : Int) - 1) < 0 then 0
       else jsLastIndexOf text lfText ((index : Int) - 1) + ((lfText.length : Nat) : Int))) =
      specColumnAt text index lfText
    exact getColumn_core text index lfText (by simp [lfText]) hidx
  · show ((index : Int) -
      (if jsLastIndexOf text crlfText ((index : Int) - 1) < 0 then 0
       else jsLastIndexOf text crlfText ((index : Int) - 1) + ((crlfText.length : Nat) : Int))) =
      specColumnAt text index crlfText
    exact getColumn_core text index crlfText (by simp [crlfText]) hidx

/-- Witness for C8's amended theorem at a concrete text and offset. -/
theorem getColumnAt_eq_spec_witness :
    getColumnAt "a\nbc".data 3 lfText = specColumnAt "a\nbc".data 3 lfText :=
  getColumnAt_eq_spec "a\nbc".data 3 lfText (Or.inl rfl) (by omega)

/-- Counterexample for C8 as stated: at offset `0` on a buffer that
begins with the line ending, no occurrence starts strictly before the
offset, so the spec's column is `0`; but JS `lastIndexOf` clamps the
`-1` search start to `0`, finds the occurrence at `0` and the code
returns `-1`. -/
theorem getColumnAt_offset_zero_mismatch :
    getColumnAt lfText 0 lfText = -1 ∧ specColumnAt lfText 0 lfText = 0 :=
  ⟨rfl, rfl⟩

/-!
### Claim theorems about the rules and the orchestrator
-/

/-- C7.  `findFirst` returns the first node of the depth-first pre-order
visit sequence induced by `walk` (over every enumerable object- or
array-valued field) satisfying the predicate on `(node, parent)`, and
`none` (JS `undefined`) when no node matches; `walk` itself -- whose stop
sentinel is threaded as a boolean through every recursive call -- stops
exactly when some visited node triggers the sentinel. -/
theorem findFirst_walk_spec :
    (∀ (root : JVal) (pred : JVal → Option JVal → Bool),
        findFirst pred root none =
          ((preW root none).find? (fun x => pred x.1 x.2)).map Prod.fst) ∧
    (∀ (root : JVal) (vis : JVal → Option JVal → Bool),
        walk vis root none = (preW root none).any (fun x => vis x.1 x.2)) :=
  ⟨fun root pred => findFirst_eq_pre pred root none,
   fun root vis => walk_eq_pre vis root none⟩

/-- C4.  The process exits 0 when `main` completes without throwing
(including when nothing changed), 2 when the propagated error's name is
`'PatchError'` (which is what every rule-raised `PatchError` carries), 1
for any other propagated error, and the three codes are pairwise
distinct. -/
theorem exit_code_spec :
    (∀ (r1 r2 r3 r4 : Except PatchError PatchResult) (v : List String),
        mainResult r1 r2 r3 r4 = .ok v →
        processExitCode (mainResult r1 r2 r3 r4) = 0) ∧
    (∀ e : JsError, e.name = "PatchError" →
        processExitCode (Except.error (α := List String) e) = 2) ∧
    (∀ e : JsError, e.name ≠ "PatchError" →
        processExitCode (Except.error (α := List String) e) = 1) ∧
    (∀ (r1 r2 r3 r4 : Except PatchError PatchResult) (e : JsError),
        mainResult r1 r2 r3 r4 = .error e →
        processExitCode (mainResult r1 r2 r3 r4) = 2) ∧
    (2 : Nat) ≠ 0 ∧ (1 : Nat) ≠ 0 ∧ (2 : Nat) ≠ 1 := by
  refine ⟨?_, ?_, ?_, ?_, by omega, by omega, by omega⟩
  · intro r1 r2 r3 r4 v h
    rw [h]
    rfl
  · intro e h
    simp [processExitCode, h]
  · intro e h
    simp [processExitCode, h]
  · intro r1 r2 r3 r4 e h
    cases r1 <;> cases r2 <;> cases r3 <;> cases r4 <;>
      simp_all [mainResult, processExitCode] <;> subst h <;> rfl

/-- Witness for C4 at concrete outcomes. -/
theorem exit_code_spec_witness :
    processExitCode (mainResult (.ok ⟨false, none⟩) (.ok ⟨false, none⟩)
      (.ok ⟨false, none⟩) (.ok ⟨false, none⟩)) = 0 ∧
    processExitCode (Except.error (α := List String) ⟨"PatchError", "m"⟩) = 2 ∧
    processExitCode (Except.error (α := List String) ⟨"TypeError", "m"⟩) = 1 :=
  ⟨exit_code_spec.1 _ _ _ _ [] rfl,
   exit_code_spec.2.1 ⟨"PatchError", "m"⟩ rfl,
   exit_code_spec.2.2.1 ⟨"TypeError", "m"⟩ (by simp)⟩

/-- C2.  When the parse tree lacks a rule's anchor (no node of the
pre-order satisfies the anchor predicate), the rule raises a `PatchError`
whose message names that anchor, and -- the result being an error, whose
`written` payload does not exist -- performs no write. -/
theorem missing_anchor_fails :
    (∀ (code : Text) (ast : JVal) (parse : ParseFn) (gen : GenFn),
        (∀ x ∈ preW ast none, isGetInjectedMethod x.1 x.2 = false) →
        patchPreinject code ast parse gen =
          .error ⟨"preinject.js: cannot find ObjectMethod GetInjected"⟩) ∧
    (∀ (code : Text) (ast : JVal) (parse : ParseFn) (gen : GenFn),
        (∀ x ∈ preW ast none, isInjectScriptsFn x.1 x.2 = false) →
        patchInject code ast parse gen =
          .error ⟨"inject.js: cannot find function injectScripts"⟩) ∧
    (∀ (code : Text) (ast : JVal),
        (∀ x ∈ preW ast none, isVMInjectionNs x.1 x.2 = false) →
        patchTypes code ast =
          .error ⟨"types.d.ts: cannot find namespace VMInjection"⟩) := by
  refine ⟨?_, ?_, ?_⟩
  · intro code ast parse gen h
    unfold patchPreinject preinjectPlan
    rw [findFirst_eq_none _ _ h]
  · intro code ast parse gen h
    unfold patchInject
    rw [findFirst_eq_none _ _ h]
  · intro code ast h
    unfold patchTypes
    rw [findFirst_eq_none _ _ h]

/-- Witness for C2: a tree with no anchors makes all three rules raise
their respective anchor-naming errors. -/
theorem missing_anchor_fails_witness :
    patchPreinject c2code c2ast c2parse c2gen =
      .error ⟨"preinject.js: cannot find ObjectMethod GetInjected"⟩ ∧
    patchInject c2code c2ast c2parse c2gen =
      .error ⟨"inject.js: cannot find function injectScripts"⟩ ∧
    patchTypes c2code c2ast =
      .error ⟨"types.d.ts: cannot find namespace VMInjection"⟩ :=
  ⟨missing_anchor_fails.1 c2code c2ast c2parse c2gen (by decide),
   missing_anchor_fails.2.1 c2code c2ast c2parse c2gen (by decide),
   missing_anchor_fails.2.2 c2code c2ast (by decide)⟩

/-- C1 (code bug).  Running `patchInject` on an unpatched `inject.js`
succeeds and writes the canonical patched file; running it again on that
very output raises `PatchError` instead of reporting "unchanged", because
the search predicate excludes exactly the canonical
`assign(info.gmi || createNullObj(), ...)` right-hand side the rule
itself produces, so the second run finds no assignment at all.  The full
rule set is therefore not idempotent. -/
theorem patchInject_rerun_raises :
    patchInject c1code0 c1ast0 c1parse c1gen = .ok ⟨true, some c1code2⟩ ∧
    patchInject c1code2 c1ast2 c1parse c1gen =
      .error ⟨"inject.js: cannot find assignment \"info.gmi = \x7b ... \x7d\" in injectScripts"⟩ :=
  ⟨rfl, rfl⟩

/-- C6 (code bug).  `patchInject` wraps a plain object-literal assignment
in place, leaving every byte outside the right-hand side's span
unchanged; with a *non-canonical* `assign(...)` right side it returns
`false` and writes nothing; but on the canonical
`assign(info.gmi || createNullObj(), ...)` right side -- the one shape
the claim's "already a call to assign" most needs to cover -- it raises
`PatchError` instead of returning `false`. -/
theorem patchInject_assign_cases :
    patchInject c6code0 c6ast0 c6parse c6gen =
      .ok ⟨true, some (c6code0.take 40 ++ c6repl ++ c6code0.drop 42)⟩ ∧
    patchInject c6codeStale c6astStale c6parse c6gen = .ok ⟨false, none⟩ ∧
    patchInject c6codeCanon c6astCanon c6parse c6gen =
      .error ⟨"inject.js: cannot find assignment \"info.gmi = \x7b ... \x7d\" in injectScripts"⟩ :=
  ⟨rfl, rfl, rfl⟩

/-- C10.  Whenever `patchPreinject` gets past its searches (the plan
succeeds), it writes back exactly when applying the computed edit set to
the original buffer yields a different buffer, its boolean result equals
whether a write occurred, its edit set is never empty (the re-render edit
for the return statement is always pushed), and it never writes content
identical to the original. -/
theorem patchPreinject_write_iff :
    ∀ (code : Text) (ast : JVal) (parse : ParseFn) (gen : GenFn) (pl : PreinjectPlan),
    preinjectPlan code ast parse gen = .ok pl →
    (patchPreinject code ast parse gen =
      (if applyEdits code pl.edits = code then .ok ⟨false, none⟩
       else .ok ⟨true, some (applyEdits code pl.edits)⟩)) ∧
    pl.edits ≠ [] ∧
    (∀ r, patchPreinject code ast parse gen = .ok r →
      r.changed = r.written.isSome ∧ r.written ≠ some code) := by
  intro code ast parse gen pl h
  refine ⟨?_, ?_, ?_⟩
  · unfold patchPreinject
    rw [h]
  · unfold preinjectPlan at h
    split at h
    · exact absurd h (by simp)
    · dsimp only at h
      split at h
      · exact absurd h (by simp)
      · cases h
        simp
  · intro r hr
    unfold patchPreinject at hr
    rw [h] at hr
    dsimp only at hr
    by_cases hc : applyEdits code pl.edits = code
    · rw [if_pos hc] at hr
      cases hr
      simp
    · rw [if_neg hc] at hr
      cases hr
      exact ⟨rfl, by simp [hc]⟩

/-- Witness for C10: on a minimal unpatched file the plan succeeds, the
edit set is non-empty and the write happens iff the spliced buffer
differs. -/
theorem patchPreinject_write_iff_witness :
    patchPreinject c10code c10ast c10parse c10gen =
      (if applyEdits c10code c10plan.edits = c10code then .ok ⟨false, none⟩
       else .ok ⟨true, some (applyEdits c10code c10plan.edits)⟩) ∧
    c10plan.edits ≠ [] :=
  ⟨(patchPreinject_write_iff c10code c10ast c10parse c10gen c10plan rfl).1,
   (patchPreinject_write_iff c10code c10ast c10parse c10gen c10plan rfl).2.1⟩

set_option maxRecDepth 40000 in
/-- C5 counterexample.  Two buffers with the *identical* syntax tree
(`c5code2` differs from `c5code1` only in one whitespace byte inside the
return statement, which leaves every node span, line and column intact)
receive different no-op classifications from `patchPreinject`: the
canonically formatted buffer is left untouched, the tab-formatted one is
rewritten.  The no-op decision is therefore not a function of the parsed
tree alone. -/
theorem preinject_noop_not_tree_only :
    patchPreinject c5code1 c5ast c5parse c5gen = .ok ⟨false, none⟩ ∧
    patchPreinject c5code2 c5ast c5parse c5gen = .ok ⟨true, some c5code1⟩ ∧
    c5code1 ≠ c5code2 :=
  ⟨rfl, rfl, by decide⟩

/-- C5 (amended).  The no-op classification of `patchContentIndex`,
`patchInject` and `patchTypes` is a function of the parsed tree only (two
buffers with the same tree are classified alike), and no rule consults a
raw marker substring; `patchPreinject`, however, reports no-op exactly
when its computed edit set reproduces the buffer byte-for-byte, which
depends on the buffer's concrete bytes as well as its tree. -/
theorem noop_classification_amended :
    (∀ (ast : JVal) (parse : ParseFn) (gen : GenFn) (code code' : Text),
        isNoop (patchContentIndex code ast parse gen) =
          isNoop (patchContentIndex code' ast parse gen)) ∧
    (∀ (ast : JVal) (parse : ParseFn) (gen : GenFn) (code code' : Text),
        isNoop (patchInject code ast parse gen) =
          isNoop (patchInject code' ast parse gen)) ∧
    (∀ (ast : JVal) (code code' : Text),
        isNoop (patchTypes code ast) = isNoop (patchTypes code' ast)) ∧
    (∀ (code : Text) (ast : JVal) (parse : ParseFn) (gen : GenFn) (pl : PreinjectPlan),
        preinjectPlan code ast parse gen = .ok pl →
        (isNoop (patchPreinject code ast parse gen) = true ↔
          applyEdits code pl.edits = code)) := by
  refine ⟨?_, ?_, ?_, ?_⟩
  · intro ast parse gen code code'
    unfold patchContentIndex
    cases hf : findFirst isInitFn ast none with
    | none => rfl
    | some initFn =>
      dsimp only
      split
      · rfl
      · try dsimp only
        split
        · try dsimp only
          split
          · rfl
          · rfl
        · rfl
  · intro ast parse gen code code'
    unfold patchInject
    cases hf : findFirst isInjectScriptsFn ast none with
    | none => rfl
    | some injectScriptsFn =>
      dsimp only
      cases hassign : findFirst injectAssignPred injectScriptsFn none with
      | none => rfl
      | some assignExpr =>
        dsimp only
        split
        · rfl
        · rfl
  · intro ast code code'
    unfold patchTypes
    cases h1 : findFirst isVMInjectionNs ast none with
    | none => rfl
    | some vmInjNs =>
      dsimp only
      split
      · rfl
      · try dsimp only
        split
        · rfl
        · try dsimp only
          split
          · rfl
          · rfl
          · rfl
  · intro code ast parse gen pl h
    unfold patchPreinject isNoop
    rw [h]
    dsimp only
    by_cases hc : applyEdits code pl.edits = code
    · rw [if_pos hc]
      simp [hc]
    · rw [if_neg hc]
      simp [hc]

/-- Witness for C5's amended theorem at concrete inputs: the three
tree-only rules classify two different buffers alike, and on the
already-current preinject artifact the no-op decision matches the
byte-identity of the spliced buffer. -/
theorem noop_classification_amended_witness :
    isNoop (patchContentIndex "a".data JVal.null c5parse c5gen) =
      isNoop (patchContentIndex "b".data JVal.null c5parse c5gen) ∧
    isNoop (patchInject "a".data JVal.null c5parse c5gen) =
      isNoop (patchInject "b".data JVal.null c5parse c5gen) ∧
    isNoop (patchTypes "a".data JVal.null) = isNoop (patchTypes "b".data JVal.null) ∧
    (isNoop (patchPreinject c5code1 c5ast c5parse c5gen) = true ↔
      applyEdits c5code1 c5plan.edits = c5code1) :=
  ⟨noop_classification_amended.1 JVal.null c5parse c5gen "a".data "b".data,
   noop_classification_amended.2.1 JVal.null c5parse c5gen "a".data "b".data,
   noop_classification_amended.2.2.1 JVal.null "a".data "b".data,
   noop_classification_amended.2.2.2 c5code1 c5ast c5parse c5gen c5plan rfl⟩
